import Mathlib

/-!
Verification development for the rocket-agentx core: a shallow embedding of
the asynchronous task executor (Redis-backed store + worker pool) and the
OSS object client (range download, multipart upload, v4 signing) from
`src/services/executor.rs`, `src/services/oss.rs` and the entity modules,
together with proofs of the specified properties.

Conventions:
- Byte streams are modelled as `List Char` (all persisted payloads are UTF-8
  text); the zstd encoder/decoder pair (external `async_compression` crate)
  is modelled as the identity on the encoded text, since every claim speaks
  about the content after decompression.
- Machine integers (`u64`, `usize`, `u16`) are modelled as `Nat`; no
  arithmetic in the modelled paths can overflow at the sizes the code caps
  itself to (512 MiB bodies, 128 parts).
- Types provided by crates outside this repository (`agentx::Completion`,
  `agentx::Role`, usage token counts) are modelled from the spec, marked in
  their doc comments.
-/

namespace RocketAgentx

/-! ## JSON values

`serde_json` data model, restricted to what the program serializes:
null, booleans, integers, strings, arrays, objects. Object fields keep
their textual order, since serde's derived deserializer processes map
entries in order and rejects duplicates of known fields. -/

inductive Json where
  | null : Json
  | bool (b : Bool) : Json
  | num (n : Int) : Json
  | str (s : String) : Json
  | arr (elems : List Json) : Json
  | obj (fields : List (String × Json)) : Json

/-! ## serde_json string escaping

`serde_json` escapes `"` and `\`, uses the short escapes for the control
characters BS HT LF FF CR, and `\u00XX` for the remaining control
characters. -/

def hexDigit (n : Nat) : Char :=
  if n < 10 then Char.ofNat (48 + n) else Char.ofNat (87 + n)

def escChar (c : Char) : List Char :=
  if c = '"' then ['\\', '"']
  else if c = '\\' then ['\\', '\\']
  else if c = '\n' then ['\\', 'n']
  else if c = '\t' then ['\\', 't']
  else if c = '\r' then ['\\', 'r']
  else if c.toNat = 8 then ['\\', 'b']
  else if c.toNat = 12 then ['\\', 'f']
  else if c.toNat < 32 then
    ['\\', 'u', '0', '0', hexDigit (c.toNat / 16), hexDigit (c.toNat % 16)]
  else [c]

def escString (s : String) : List Char :=
  s.data.flatMap escChar

/-- Render a `Json` value the way `serde_json::to_string` does (compact,
no spaces). Structural recursion through nested lists. -/
def Json.render : Json → List Char
  | .null => "null".data
  | .bool true => "true".data
  | .bool false => "false".data
  | .num n =>
    (if n < 0 then "-".data else []) ++ (Int.natAbs n).repr.data
  | .str s => '"' :: escString s ++ ['"']
  | .arr elems => '[' :: renderList elems ++ [']']
  | .obj fields => '{' :: renderFields fields ++ ['}']
where
  renderList : List Json → List Char
    | [] => []
    | [x] => x.render
    | x :: y :: rest => x.render ++ ',' :: renderList (y :: rest)
  renderFields : List (String × Json) → List Char
    | [] => []
    | [(k, v)] => '"' :: escString k ++ '"' :: ':' :: v.render
    | (k, v) :: f :: rest =>
      '"' :: escString k ++ '"' :: ':' :: v.render ++ ',' :: renderFields (f :: rest)

/-! ## Data model

`Status`, `Task` from `src/entities/task.rs`, `Message`/`Video` from
`src/entities/message.rs`. `DateTime` (`src/entities/datetime.rs`)
serializes as its `"%Y-%m-%d %H:%M:%S"`-formatted string, so it is carried
as that `String`; the deserializer checks the shape of the string (the
digit/separator pattern of the format). `Role`, `Completion` and the usage
record come from the external `agentx` crate and are modelled from the
spec. -/

inductive Status where
  | pending
  | running
  | finished
  | failed
  deriving DecidableEq, Repr

/-- Modelled from the spec: message `role` (default "user"); the `agentx`
crate's `Role`, serialized in lowercase. -/
inductive Role where
  | user
  | assistant
  | system
  deriving DecidableEq, Repr

/-- Modelled from the spec: `usage` (token counts) of a completion; the
`agentx` crate's usage record, a JSON object of counters. -/
structure Usage where
  promptTokens : Nat
  completionTokens : Nat
  deriving DecidableEq, Repr

/-- Modelled from the spec: `Completion` is a record of `reasoning_content`,
`content`, `usage`; the worker destructures exactly these three optional
fields from each streamed chunk (`src/services/executor.rs:100-104`). -/
structure Completion where
  reasoningContent : Option String
  content : Option String
  usage : Option Usage
  deriving DecidableEq, Repr

inductive Video where
  | url (s : String)
  | images (urls : List String)
  deriving DecidableEq, Repr

/-- `Message` from `src/entities/message.rs`: all five fields optional,
skipped when absent, `context` recursively nested. -/
inductive Message where
  | mk (role : Option Role) (text : Option String) (images : Option (List String))
       (videos : Option (List Video)) (context : Option (List Message))

def Message.role : Message → Option Role
  | .mk r _ _ _ _ => r

def Message.text : Message → Option String
  | .mk _ t _ _ _ => t

def Message.images : Message → Option (List String)
  | .mk _ _ i _ _ => i

def Message.videos : Message → Option (List Video)
  | .mk _ _ _ v _ => v

def Message.context : Message → Option (List Message)
  | .mk _ _ _ _ c => c

/-- `Task` from `src/entities/task.rs`. Field declaration order matters:
serde serializes fields in this order, and only `err_msg` carries
`skip_serializing_if = "Option::is_none"` — `completion`, `model` and
`finish_time` are serialized as `null` when absent. -/
structure Task where
  id : String
  status : Status
  model : Option String
  message : Message
  completion : Option Completion
  errMsg : Option String
  createTime : String
  finishTime : Option String

/-! ## serde serialization (`serde_json::to_string`) -/

def statusJson : Status → Json
  | .pending => .str "pending"
  | .running => .str "running"
  | .finished => .str "finished"
  | .failed => .str "failed"

def roleJson : Role → Json
  | .user => .str "user"
  | .assistant => .str "assistant"
  | .system => .str "system"

def usageJson (u : Usage) : Json :=
  .obj [("prompt_tokens", .num u.promptTokens), ("completion_tokens", .num u.completionTokens)]

def optStrJson : Option String → Json
  | some s => .str s
  | none => .null

def videoJson : Video → Json
  | .url s => .str s
  | .images urls => .arr (urls.map .str)

/-- Modelled from the spec: the completion record's three fields in
declaration order. Only used when a task already carries a completion,
which never happens on the persistence paths the claims exercise. -/
def completionJson (c : Completion) : Json :=
  .obj [("reasoning_content", optStrJson c.reasoningContent),
        ("content", optStrJson c.content),
        ("usage", match c.usage with | some u => usageJson u | none => .null)]

mutual

def messageJson : Message → Json
  | .mk role text images videos context =>
    .obj ((match role with | some r => [("role", roleJson r)] | none => []) ++
          (match text with | some t => [("text", Json.str t)] | none => []) ++
          (match images with | some is => [("images", Json.arr (is.map .str))] | none => []) ++
          (match videos with | some vs => [("videos", Json.arr (vs.map videoJson))] | none => []) ++
          (match context with | some ms => [("context", Json.arr (messageListJson ms))] | none => []))

def messageListJson : List Message → List Json
  | [] => []
  | m :: rest => messageJson m :: messageListJson rest

end

def taskJson (t : Task) : Json :=
  .obj ([("id", Json.str t.id),
         ("status", statusJson t.status),
         ("model", optStrJson t.model),
         ("message", messageJson t.message),
         ("completion", match t.completion with | some c => completionJson c | none => .null)] ++
        (match t.errMsg with | some e => [("err_msg", Json.str e)] | none => []) ++
        [("create_time", Json.str t.createTime),
         ("finish_time", optStrJson t.finishTime)])

/-- `serde_json::to_string(&task)` as the byte (character) sequence. -/
def serializeTask (t : Task) : List Char :=
  (taskJson t).render

/-! ## JSON parsing (`serde_json::from_str`, syntax layer)

Recursive-descent parser over the character list, fuelled by the input
length (every recursive step first consumes at least one character, so
`length + 1` fuel always suffices). Faithful to `serde_json` where the
program's documents can reach: raw control characters inside string
literals are rejected (this is what makes the newline repair in
`Executor::decompress` necessary), literals must be consumed entirely,
numbers are integers (the program only ever serializes integer token
counts). -/

def isWsChar (c : Char) : Bool :=
  c = ' ' || c = '\n' || c = '\t' || c = '\r'

def skipWs (cs : List Char) : List Char :=
  cs.dropWhile isWsChar

def hexVal (c : Char) : Option Nat :=
  if '0' ≤ c && c ≤ '9' then some (c.toNat - 48)
  else if 'a' ≤ c && c ≤ 'f' then some (c.toNat - 87)
  else if 'A' ≤ c && c ≤ 'F' then some (c.toNat - 55)
  else none

def isDigitCh (c : Char) : Bool :=
  '0' ≤ c && c ≤ '9'

/-- Parse the body of a string literal, after the opening quote; returns
the decoded characters and the remainder after the closing quote. -/
def pStr : Nat → List Char → Option (List Char × List Char)
  | 0, _ => none
  | _ + 1, [] => none
  | fuel + 1, c :: rest =>
    if c = '"' then some ([], rest)
    else if c = '\\' then
      match rest with
      | [] => none
      | e :: r =>
        let dec? : Option (Char × List Char) :=
          if e = '"' then some ('"', r)
          else if e = '\\' then some ('\\', r)
          else if e = '/' then some ('/', r)
          else if e = 'n' then some ('\n', r)
          else if e = 't' then some ('\t', r)
          else if e = 'r' then some ('\r', r)
          else if e = 'b' then some (Char.ofNat 8, r)
          else if e = 'f' then some (Char.ofNat 12, r)
          else if e = 'u' then
            match r with
            | h1 :: h2 :: h3 :: h4 :: r' =>
              match hexVal h1, hexVal h2, hexVal h3, hexVal h4 with
              | some a, some b, some c', some d =>
                some (Char.ofNat (((a * 16 + b) * 16 + c') * 16 + d), r')
              | _, _, _, _ => none
            | _ => none
          else none
        match dec? with
        | some (ch, r') => (pStr fuel r').map (fun p => (ch :: p.1, p.2))
        | none => none
    else if c.toNat < 32 then none
    else (pStr fuel rest).map (fun p => (c :: p.1, p.2))

def pDigits (acc : Nat) : List Char → Nat × List Char
  | [] => (acc, [])
  | c :: rest =>
    if isDigitCh c then pDigits (acc * 10 + (c.toNat - 48)) (c :: rest).tail
    else (acc, c :: rest)

/-- Parse a non-negative integer literal (at least one digit). -/
def pNum (cs : List Char) : Option (Nat × List Char) :=
  match cs with
  | c :: rest =>
    if isDigitCh c then some (pDigits (c.toNat - 48) rest) else none
  | [] => none

def dropLit (lit : List Char) (cs : List Char) : Option (List Char) :=
  match lit, cs with
  | [], rest => some rest
  | l :: ls, c :: rest => if c = l then dropLit ls rest else none
  | _ :: _, [] => none

mutual

def pVal : Nat → List Char → Option (Json × List Char)
  | 0, _ => none
  | fuel + 1, cs =>
    match skipWs cs with
    | [] => none
    | c :: rest =>
      if c = '"' then
        (pStr (rest.length + 1) rest).map (fun p => (Json.str ⟨p.1⟩, p.2))
      else if c = '[' then
        pElems fuel rest
      else if c = '{' then
        pFields fuel rest
      else if c = 't' then
        (dropLit "rue".data rest).map (fun r => (Json.bool true, r))
      else if c = 'f' then
        (dropLit "alse".data rest).map (fun r => (Json.bool false, r))
      else if c = 'n' then
        (dropLit "ull".data rest).map (fun r => (Json.null, r))
      else if c = '-' then
        (pNum rest).map (fun p => (Json.num (-(p.1 : Int)), p.2))
      else if isDigitCh c then
        (pNum (c :: rest)).map (fun p => (Json.num p.1, p.2))
      else none

/-- Array elements, after the opening bracket. -/
def pElems : Nat → List Char → Option (Json × List Char)
  | 0, _ => none
  | fuel + 1, cs =>
    match skipWs cs with
    | ']' :: rest => some (Json.arr [], rest)
    | _ => pElemsNE fuel cs

/-- A non-empty element list: one value, then `,` more or `]`. -/
def pElemsNE : Nat → List Char → Option (Json × List Char)
  | 0, _ => none
  | fuel + 1, cs =>
    match pVal fuel cs with
    | some (v, r) =>
      (match skipWs r with
       | ',' :: r' =>
         (match pElemsNE fuel r' with
          | some (Json.arr vs, r'') => some (Json.arr (v :: vs), r'')
          | _ => none)
       | ']' :: r' => some (Json.arr [v], r')
       | _ => none)
    | none => none

/-- Object fields, after the opening brace. -/
def pFields : Nat → List Char → Option (Json × List Char)
  | 0, _ => none
  | fuel + 1, cs =>
    match skipWs cs with
    | '}' :: rest => some (Json.obj [], rest)
    | _ => pFieldsNE fuel cs

/-- A non-empty field list: `"key": value`, then `,` more or the closing
brace. -/
def pFieldsNE : Nat → List Char → Option (Json × List Char)
  | 0, _ => none
  | fuel + 1, cs =>
    match skipWs cs with
    | '"' :: rest =>
      (match pStr (rest.length + 1) rest with
       | some (key, r) =>
         (match skipWs r with
          | ':' :: r' =>
            (match pVal fuel r' with
             | some (v, r'') =>
               (match skipWs r'' with
                | ',' :: r3 =>
                  (match pFieldsNE fuel r3 with
                   | some (Json.obj fs, r4) => some (Json.obj ((⟨key⟩, v) :: fs), r4)
                   | _ => none)
                | '}' :: r3 => some (Json.obj [(⟨key⟩, v)], r3)
                | _ => none)
             | none => none)
          | _ => none)
       | none => none)
    | _ => none

end

/-- `serde_json::from_str`'s syntax layer: parse one value and require
that nothing but whitespace follows. -/
def parseJson (cs : List Char) : Option Json :=
  match pVal (cs.length + 1) cs with
  | some (v, rest) => if skipWs rest = [] then some v else none
  | none => none

/-! ## serde deserialization (derived `Deserialize` semantics)

The derived deserializer walks the object's entries in textual order,
keeps one slot per known field, fails on a duplicate known field
("duplicate field"), ignores unknown fields (no `deny_unknown_fields`),
and at the end fails on a missing field unless the field has type
`Option<_>` (which falls back to `None`; `err_msg` additionally carries
`serde(default)`). -/

def decodeStatus : Json → Option Status
  | .str "pending" => some .pending
  | .str "running" => some .running
  | .str "finished" => some .finished
  | .str "failed" => some .failed
  | _ => none

def decodeRole : Json → Option Role
  | .str "user" => some .user
  | .str "assistant" => some .assistant
  | .str "system" => some .system
  | _ => none

def decodeString : Json → Option String
  | .str s => some s
  | _ => none

def decodeOptString : Json → Option (Option String)
  | .null => some none
  | .str s => some (some s)
  | _ => none

def decodeNat : Json → Option Nat
  | .num n => if 0 ≤ n then some n.toNat else none
  | _ => none

def decodeStringList : List Json → Option (List String)
  | [] => some []
  | .str s :: rest => (decodeStringList rest).map (s :: ·)
  | _ => none

/-- `Video` is `serde(untagged)`: a string is a URL, an array of strings a
frame list. -/
def decodeVideo : Json → Option Video
  | .str s => some (.url s)
  | .arr elems => (decodeStringList elems).map .images
  | _ => none

def decodeVideoList : List Json → Option (List Video)
  | [] => some []
  | j :: rest =>
    match decodeVideo j with
    | some v => (decodeVideoList rest).map (v :: ·)
    | none => none

/-- Shape check for `"%Y-%m-%d %H:%M:%S"`, the validation
`DateTime::parse` performs on deserialization (`src/entities/datetime.rs`);
calendar-range validation by chrono is below this model's granularity. -/
def isDateTimeShape (s : String) : Bool :=
  match s.data with
  | [y1, y2, y3, y4, '-', m1, m2, '-', d1, d2, ' ', h1, h2, ':', n1, n2, ':', s1, s2] =>
    isDigitCh y1 && isDigitCh y2 && isDigitCh y3 && isDigitCh y4 &&
    isDigitCh m1 && isDigitCh m2 && isDigitCh d1 && isDigitCh d2 &&
    isDigitCh h1 && isDigitCh h2 && isDigitCh n1 && isDigitCh n2 &&
    isDigitCh s1 && isDigitCh s2
  | _ => false

def decodeDateTime (j : Json) : Option String :=
  match j with
  | .str s => if isDateTimeShape s then some s else none
  | _ => none

def decodeOptDateTime : Json → Option (Option String)
  | .null => some none
  | .str s => if isDateTimeShape s then some (some s) else none
  | _ => none

/-- Modelled from the spec: the usage record's counters (required
integer fields). -/
def usageLoop : List (String × Json) → Option Nat → Option Nat → Option Usage
  | [], pt, ct =>
    match pt, ct with
    | some p, some c => some ⟨p, c⟩
    | _, _ => none
  | (k, v) :: rest, pt, ct =>
    if k = "prompt_tokens" then
      match pt with
      | some _ => none
      | none => match decodeNat v with
        | some n => usageLoop rest (some n) ct
        | none => none
    else if k = "completion_tokens" then
      match ct with
      | some _ => none
      | none => match decodeNat v with
        | some n => usageLoop rest pt (some n)
        | none => none
    else usageLoop rest pt ct

def decodeUsage : Json → Option Usage
  | .obj fs => usageLoop fs none none
  | _ => none

def decodeOptUsage : Json → Option (Option Usage)
  | .null => some none
  | j => (decodeUsage j).map some

/-- Modelled from the spec: the completion record's three optional
fields. -/
def completionLoop : List (String × Json) → Option (Option String) → Option (Option String) →
    Option (Option Usage) → Option Completion
  | [], rc, ct, us => some ⟨rc.getD none, ct.getD none, us.getD none⟩
  | (k, v) :: rest, rc, ct, us =>
    if k = "reasoning_content" then
      match rc with
      | some _ => none
      | none => match decodeOptString v with
        | some s => completionLoop rest (some s) ct us
        | none => none
    else if k = "content" then
      match ct with
      | some _ => none
      | none => match decodeOptString v with
        | some s => completionLoop rest rc (some s) us
        | none => none
    else if k = "usage" then
      match us with
      | some _ => none
      | none => match decodeOptUsage v with
        | some u => completionLoop rest rc ct (some u)
        | none => none
    else completionLoop rest rc ct us

def decodeCompletion : Json → Option Completion
  | .obj fs => completionLoop fs none none none
  | _ => none

def decodeOptCompletion : Json → Option (Option Completion)
  | .null => some none
  | j => (decodeCompletion j).map some

mutual

def decodeMessage : Json → Option Message
  | .obj fs => msgLoop fs none none none none none
  | _ => none

def msgLoop : List (String × Json) → Option (Option Role) → Option (Option String) →
    Option (Option (List String)) → Option (Option (List Video)) →
    Option (Option (List Message)) → Option Message
  | [], role, text, images, videos, context =>
    some (.mk (role.getD none) (text.getD none) (images.getD none)
              (videos.getD none) (context.getD none))
  | (k, v) :: rest, role, text, images, videos, context =>
    if k = "role" then
      match role with
      | some _ => none
      | none =>
        match v with
        | .null => msgLoop rest (some none) text images videos context
        | _ => match decodeRole v with
          | some r => msgLoop rest (some (some r)) text images videos context
          | none => none
    else if k = "text" then
      match text with
      | some _ => none
      | none => match decodeOptString v with
        | some s => msgLoop rest role (some s) images videos context
        | none => none
    else if k = "images" then
      match images with
      | some _ => none
      | none =>
        match v with
        | .null => msgLoop rest role text (some none) videos context
        | .arr elems => match decodeStringList elems with
          | some is => msgLoop rest role text (some (some is)) videos context
          | none => none
        | _ => none
    else if k = "videos" then
      match videos with
      | some _ => none
      | none =>
        match v with
        | .null => msgLoop rest role text images (some none) context
        | .arr elems => match decodeVideoList elems with
          | some vs => msgLoop rest role text images (some (some vs)) context
          | none => none
        | _ => none
    else if k = "context" then
      match context with
      | some _ => none
      | none =>
        match v with
        | .null => msgLoop rest role text images videos (some none)
        | .arr elems => match decodeMessageList elems with
          | some ms => msgLoop rest role text images videos (some (some ms))
          | none => none
        | _ => none
    else msgLoop rest role text images videos context

def decodeMessageList : List Json → Option (List Message)
  | [] => some []
  | j :: rest =>
    match decodeMessage j with
    | some m =>
      match decodeMessageList rest with
      | some ms => some (m :: ms)
      | none => none
    | none => none

end

def taskLoop : List (String × Json) → Option String → Option Status →
    Option (Option String) → Option Message → Option (Option Completion) →
    Option (Option String) → Option String → Option (Option String) → Option Task
  | [], id, status, model, message, completion, errMsg, createTime, finishTime =>
    match id, status, message, createTime with
    | some i, some st, some msg, some ct =>
      some ⟨i, st, model.getD none, msg, completion.getD none, errMsg.getD none,
            ct, finishTime.getD none⟩
    | _, _, _, _ => none
  | (k, v) :: rest, id, status, model, message, completion, errMsg, createTime, finishTime =>
    if k = "id" then
      match id with
      | some _ => none
      | none => match decodeString v with
        | some s => taskLoop rest (some s) status model message completion errMsg createTime finishTime
        | none => none
    else if k = "status" then
      match status with
      | some _ => none
      | none => match decodeStatus v with
        | some st => taskLoop rest id (some st) model message completion errMsg createTime finishTime
        | none => none
    else if k = "model" then
      match model with
      | some _ => none
      | none => match decodeOptString v with
        | some m => taskLoop rest id status (some m) message completion errMsg createTime finishTime
        | none => none
    else if k = "message" then
      match message with
      | some _ => none
      | none => match decodeMessage v with
        | some m => taskLoop rest id status model (some m) completion errMsg createTime finishTime
        | none => none
    else if k = "completion" then
      match completion with
      | some _ => none
      | none => match decodeOptCompletion v with
        | some c => taskLoop rest id status model message (some c) errMsg createTime finishTime
        | none => none
    else if k = "err_msg" then
      match errMsg with
      | some _ => none
      | none => match decodeOptString v with
        | some e => taskLoop rest id status model message completion (some e) createTime finishTime
        | none => none
    else if k = "create_time" then
      match createTime with
      | some _ => none
      | none => match decodeDateTime v with
        | some c => taskLoop rest id status model message completion errMsg (some c) finishTime
        | none => none
    else if k = "finish_time" then
      match finishTime with
      | some _ => none
      | none => match decodeOptDateTime v with
        | some f => taskLoop rest id status model message completion errMsg createTime (some f)
        | none => none
    else taskLoop rest id status model message completion errMsg createTime finishTime

/-- `serde_json::from_str::<Task>` after a successful parse. -/
def decodeTask : Json → Option Task
  | .obj fs => taskLoop fs none none none none none none none none
  | _ => none

/-! ## TaskStore and Executor (`src/services/executor.rs`)

The Redis keyspace is an association list `id → stored bytes` and the
`PENDING_QUEUE` a list with `LPUSH` at the head and `BRPOP` at the tail.
Stored values are kept as the *uncompressed* byte text: the zstd encoder
and decoder (external crate) round-trip the exact byte sequence written,
and every claim quantifies over the content after decompression. TTL
expiry (`SET … EX expiration`) is outside the model; a stored entry
stands for a key within its TTL window. -/

structure StoreState where
  store : List (String × List Char)
  queue : List String

def kvSet (k : String) (v : List Char) : List (String × List Char) → List (String × List Char)
  | [] => [(k, v)]
  | (k', v') :: rest => if k' = k then (k, v) :: rest else (k', v') :: kvSet k v rest

def kvGet (k : String) : List (String × List Char) → Option (List Char)
  | [] => none
  | (k', v') :: rest => if k' = k then some v' else kvGet k rest

/-- The newline repair in `Executor::decompress`
(`executor.rs:208`): `replace("\n", "\\n")` on the decompressed text. -/
def repairNewlines (cs : List Char) : List Char :=
  cs.flatMap (fun c => if c = '\n' then ['\\', 'n'] else [c])

/-- `Executor::get`'s value pipeline: decompress (identity here), repair
newlines, parse, deserialize into `Task`. -/
def getTaskBytes (cs : List Char) : Option Task :=
  (parseJson (repairNewlines cs)).bind decodeTask

/-- `Executor::get` (`executor.rs:164-176`): absent key is `Ok(None)`, a
present key whose payload does not deserialize is an error. -/
def getTask (st : StoreState) (id : String) : Except String (Option Task) :=
  match kvGet id st.store with
  | none => .ok none
  | some bytes =>
    match getTaskBytes bytes with
    | some t => .ok (some t)
    | none => .error "deserialization failure"

/-- `Executor::set` (`executor.rs:178-182`): `SET id zstd(json) EX expiration`. -/
def setTask (st : StoreState) (t : Task) : StoreState :=
  { st with store := kvSet t.id (serializeTask t) st.store }

/-- `Executor::set_raw` (`executor.rs:184-194`). -/
def setRaw (st : StoreState) (key : String) (value : List Char) : StoreState :=
  { st with store := kvSet key value st.store }

/-- `String.rsplit_once` on a pattern that is the last character: the part
of `cs` strictly before the last occurrence of `target` (the serialized
task always ends in the brace being split off, so the `unwrap` at
`executor.rs:92` cannot panic). -/
def beforeLast (target : Char) (cs : List Char) : List Char :=
  (((cs.reverse).dropWhile (· ≠ target)).drop 1).reverse

/-- The streaming while-loop of `Executor::execute` (`executor.rs:99-118`):
reasoning chunks are appended verbatim; the first content chunk switches
the `reasoning` flag and emits the `","content":"` separator; the last
usage chunk wins. Returns the emitted bytes and the final usage. -/
def streamLoop : List Completion → Bool → Option Usage → List Char × Option Usage
  | [], _, usage => ([], usage)
  | chunk :: rest, reasoning, usage =>
    let part1 : List Char :=
      match chunk.reasoningContent with
      | some rc => rc.data
      | none => []
    let step2 : List Char × Bool :=
      match chunk.content with
      | some c => ((if reasoning then "\",\"content\":\"".data else []) ++ c.data, false)
      | none => ([], reasoning)
    let usage' : Option Usage :=
      match chunk.usage with
      | some u => some u
      | none => usage
    let tail := streamLoop rest step2.2 usage'
    (part1 ++ step2.1 ++ tail.1, tail.2)

/-- The bytes `Executor::execute` feeds through the zstd encoder on the
success path (`executor.rs:87-129`): serialize the task with status
Finished and `finish_time` set, truncate the trailing brace, then append
the hand-built completion fragment and the usage tail. -/
def streamFinishBytes (task : Task) (ft : String) (chunks : List Completion) : List Char :=
  let task' := { task with status := Status.finished, finishTime := some ft }
  let json := serializeTask task'
  let truncated := beforeLast '}' json
  let body := streamLoop chunks true none
  truncated ++ ",\"completion\":\x7b\"reasoning_content\":\"".data ++ body.1 ++
    (match body.2 with
     | some u => "\",\"usage\":".data ++ (usageJson u).render
     | none => "\",\"usage\":null".data) ++
    "\x7d\x7d".data

/-- `Executor::execute` (`executor.rs:76-138`): persist the task as
Running, invoke the model (its outcome is the `result` argument), then
either stream-persist the finished record via `set_raw` or persist the
Failed record via `set`. The queue is never touched. -/
def executeModel (st : StoreState) (task : Task) (ft : String)
    (result : Except String (List Completion)) : StoreState :=
  let running := { task with status := Status.running }
  let st1 := setTask st running
  match result with
  | .ok chunks => setRaw st1 task.id (streamFinishBytes running ft chunks)
  | .error e => setTask st1 { running with status := Status.failed, errMsg := some e }

/-- `Executor::submit` (`executor.rs:37-59`) up to worker spawning: `set`
the task, then `LPUSH` its id. `pushFails` injects a failure of the
`LPUSH` call, whose `?` aborts `submit` after the store write. -/
def submitModel (st : StoreState) (task : Task) (pushFails : Bool) :
    Except String Unit × StoreState :=
  let st1 := setTask st task
  if pushFails then (.error "LPUSH failure", st1)
  else (.ok (), { st1 with queue := task.id :: st1.queue })

/-- `Executor::result` (`executor.rs:140-162`). `trace i` is the outcome
of the `get` at the i-th poll (`none` = task absent); the interval ticks
once per second with an immediate first tick, so `i` is also the number
of elapsed seconds when the i-th poll runs. `fuel` bounds how many polls
we unroll; `none` means the loop is still running after `fuel` polls. -/
def resultLoop (trace : Nat → Option Task) (taskId : String) (timeout : Nat) :
    Nat → Nat → Option (Except String Task)
  | 0, _ => none
  | fuel + 1, i =>
    match trace i with
    | none => some (.error ("Task '" ++ taskId ++ "' not existed"))
    | some task =>
      if task.status = Status.finished ∨ task.status = Status.failed then
        some (.ok task)
      else if 0 < timeout ∧ timeout ≤ i then
        some (.ok task)
      else
        resultLoop trace taskId timeout fuel (i + 1)

/-! ## Worker pool (`Executor::submit` + spawned worker loop)

The process-wide semaphore (`SEMAPHORE`, capacity `num_workers`,
`executor.rs:33,40`) and the population of live worker coroutines, as an
interleaving transition system. `submit` always `LPUSH`es, then spawns a
worker iff the non-blocking `try_acquire` succeeds, i.e. iff a permit is
available. A worker holds its permit for its whole loop: `BRPOP` with an
element pops it (`Ok(Some)`), and `consume`/`execute` errors only log and
continue, so the only loop exit — and the only permit release — is a
`BRPOP` that comes back empty (`Ok(None)`), which requires the pending
queue to have stayed empty for the `lifetime` window. -/

structure PoolState where
  permits : Nat
  workers : Nat
  pending : List String

inductive PoolStep : PoolState → PoolState → Prop where
  | submitSpawn (s : PoolState) (id : String) (h : 0 < s.permits) :
      PoolStep s ⟨s.permits - 1, s.workers + 1, id :: s.pending⟩
  | submitNoSpawn (s : PoolState) (id : String) (h : s.permits = 0) :
      PoolStep s ⟨s.permits, s.workers, id :: s.pending⟩
  | workerPop (s : PoolState) (h : 0 < s.workers) (hq : s.pending ≠ []) :
      PoolStep s ⟨s.permits, s.workers, s.pending.dropLast⟩
  | workerExit (s : PoolState) (h : 0 < s.workers) (hq : s.pending = []) :
      PoolStep s ⟨s.permits + 1, s.workers - 1, s.pending⟩

/-- Fresh process: semaphore initialized at capacity `numWorkers`, no
worker coroutines, empty pending queue. -/
def initPool (numWorkers : Nat) : PoolState :=
  ⟨numWorkers, 0, []⟩

def PoolReachable (numWorkers : Nat) (s : PoolState) : Prop :=
  Relation.ReflTransGen PoolStep (initPool numWorkers) s

/-! ## OSS client (`src/services/oss.rs`) -/

def GET_OBJECT_RANGE_SIZE : Nat := 16 * 1024 * 1024
def PUT_OBJECT_MAX_SIZE : Nat := 512 * 1024 * 1024
def MULTIPART_UPLOAD_THRESHOLD : Nat := 16 * 1024 * 1024
def MULTIPART_UPLOAD_PART_SIZE : Nat := 4 * 1024 * 1024
def MULTIPART_UPLOAD_WORKERS_NUM : Nat := 3

/-- The range loop header of `get_object` (`oss.rs:102-103`):
`for start in (0..content_length).step_by(GET_OBJECT_RANGE_SIZE)` with
`end = (start + RANGE - 1).min(content_length - 1)`. -/
def rangeLoop (L : Nat) (start : Nat) : List (Nat × Nat) :=
  if _h : start < L then
    (start, min (start + GET_OBJECT_RANGE_SIZE - 1) (L - 1)) ::
      rangeLoop L (start + GET_OBJECT_RANGE_SIZE)
  else []
termination_by L - start
decreasing_by simp [GET_OBJECT_RANGE_SIZE]; omega

def getObjectRanges (L : Nat) : List (Nat × Nat) :=
  rangeLoop L 0

/-- Outcome of one `get_object_range` attempt: the request itself fails
(`Err` from `request`), or a byte stream that yields some chunks and then
either hits a mid-stream chunk error (`Some(Err(_))`) or ends normally
(`None`). -/
inductive RangeAttempt where
  | reqFail
  | chunks (cs : List (List Nat)) (midErr : Bool)

/-- Bytes of one attempt tagged with their file offsets: an HTTP range
response streams the requested range from its first byte, so the n-th
received byte of an attempt on range `(start, _)` sits at offset
`start + n`. -/
def tagOffsets (start : Nat) (bytes : List Nat) : List (Nat × Nat) :=
  bytes.enum.map (fun p => (start + p.1, p.2))

/-- The retry loop for one range (`oss.rs:104-119`), over the remaining
retry indices (`[0,1,2,3]` initially). Returns the yielded
offset-tagged bytes and whether the outer loop continues (`continue
'outer`) or is broken (`break 'outer` after the last retry). A
successful attempt that ends normally continues the outer loop; a
request failure or mid-stream error sleeps and retries, and after retry
3 breaks the outer loop. -/
def runRangeAux (oracle : Nat × Nat → Nat → RangeAttempt) (range : Nat × Nat) :
    List Nat → List (Nat × Nat) × Bool
  | [] => ([], false)
  | retry :: rest =>
    match oracle range retry with
    | .reqFail =>
      if rest = [] then ([], false) else runRangeAux oracle range rest
    | .chunks cs midErr =>
      let tagged := tagOffsets range.1 cs.flatten
      if midErr then
        if rest = [] then (tagged, false)
        else
          let t := runRangeAux oracle range rest
          (tagged ++ t.1, t.2)
      else (tagged, true)

/-- The outer range loop of the `get_object` stream: run each range's
retry loop; a broken outer loop ends the byte sequence silently. -/
def runDownload (oracle : Nat × Nat → Nat → RangeAttempt) :
    List (Nat × Nat) → List (Nat × Nat)
  | [] => []
  | range :: ranges =>
    let r := runRangeAux oracle range [0, 1, 2, 3]
    if r.2 then r.1 ++ runDownload oracle ranges else r.1

/-- The full offset-tagged byte stream `get_object` yields for an object
of `content_length = L`, given the behaviour `oracle` of each range
request attempt. -/
def getObjectStream (L : Nat) (oracle : Nat × Nat → Nat → RangeAttempt) :
    List (Nat × Nat) :=
  runDownload oracle (getObjectRanges L)

/-! ### Multipart upload (`oss.rs:169-226`) -/

structure PartUpload where
  partNumber : Nat
  data : List Nat

/-- The inner buffer-splitting while loop (`oss.rs:184-200`): while the
buffer holds at least `partSize` bytes, split off exactly `partSize`
bytes, spawn that part under the current counter value, and increment
the counter. Returns spawned parts (in spawn order), the remaining
buffer, and the next counter. (The `partSize = 0` guard conjunct only
makes the recursion well-founded; the program instantiates `partSize`
with the positive constant `MULTIPART_UPLOAD_PART_SIZE`.) -/
def splitLoop (partSize : Nat) (buffer : List Nat) (pn : Nat) :
    List PartUpload × List Nat × Nat :=
  if h : partSize ≤ buffer.length ∧ 0 < partSize then
    let part := buffer.take partSize
    let rest := buffer.drop partSize
    let r := splitLoop partSize rest (pn + 1)
    (⟨pn, part⟩ :: r.1, r.2.1, r.2.2)
  else ([], buffer, pn)
termination_by buffer.length
decreasing_by simp; omega

/-- The body-reading loop (`oss.rs:182-201`): extend the buffer with each
received chunk, then drain it with the splitting loop. -/
def feedChunks (partSize : Nat) : List (List Nat) → List Nat → Nat →
    List PartUpload × List Nat × Nat
  | [], buffer, pn => ([], buffer, pn)
  | chunk :: rest, buffer, pn =>
    let r := splitLoop partSize (buffer ++ chunk) pn
    let r2 := feedChunks partSize rest r.2.1 r.2.2
    (r.1 ++ r2.1, r2.2)

/-- All parts spawned by `multipart_upload` for a body arriving as
`chunks`, in spawn order: the loop parts, then the residual buffer as a
final part when non-empty (`oss.rs:202-217`). Part numbering starts
at 1. -/
def multipartEmit (partSize : Nat) (chunks : List (List Nat)) : List PartUpload :=
  let r := feedChunks partSize chunks [] 1
  r.1 ++ (if r.2.1 = [] then [] else [⟨r.2.2, r.2.1⟩])

/-- `parts.sort_by_key(|part| part.part_number)` (`oss.rs:222`): the
collected results — an arbitrary interleaving of the join set — sorted
by part number before serialization into the `CompleteMultipartUpload`
body, which lists parts in list order. -/
def sortParts (parts : List PartUpload) : List PartUpload :=
  List.insertionSort (fun a b => a.partNumber ≤ b.partNumber) parts

/-! ### v4 signing (`oss.rs:345-421`) -/

/-- `request` (`oss.rs:359-363`): the additional-header name list is
computed from the headers as supplied by the caller — lowercased and
sorted ascending — before `Host`, `Date`, `x-oss-date` and
`x-oss-content-sha256` are inserted. -/
def additionalHeadersOf (caller : List (String × String)) : List String :=
  List.insertionSort (fun a b => a ≤ b) (caller.map (fun h => h.1.toLower))

/-- `authorize_v4` (`oss.rs:389-421`): credential scope, then the
`AdditionalHeaders` clause only when the list is non-empty, then the
signature (whose hex value, produced by `sign_v4` from the external
hmac/sha2 crates, is taken as a parameter). -/
def authorizeV4 (accessKeyId signDate region : String) (additional : List String)
    (signature : String) : String :=
  "OSS4-HMAC-SHA256 Credential=" ++ accessKeyId ++ "/" ++ signDate ++ "/" ++ region ++
    "/oss/aliyun_v4_request" ++
    (if additional.isEmpty then ""
     else ", AdditionalHeaders=" ++ String.intercalate ";" additional) ++
    ", Signature=" ++ signature

/-- The authorization string `request` attaches, as a function of the
caller-supplied headers. -/
def requestAuth (accessKeyId signDate region : String)
    (caller : List (String × String)) (signature : String) : String :=
  authorizeV4 accessKeyId signDate region (additionalHeadersOf caller) signature

/-! ### put_object (`oss.rs:139-154`) -/

structure ObjectMeta where
  contentType : String
  contentLength : Nat

inductive OSSRequestKind where
  | singlePut
  | initiateMultipart
  | uploadPartReq
  | completeMultipart
  deriving DecidableEq, Repr

/-- `put_object`: derive `name = "<uuid>.<ext>"` — `meta.extension()?`
aborts before any request when the content type has no known extension
(`ext` is the extension mapping of the external `rocket::ContentType`
table) — then `build_key` (which rejects names with a path separator),
then single-PUT at or below the threshold, multipart above it. `netOk`
injects the success of the HTTP calls themselves. Returns the result and
the OSS requests issued. -/
def putObjectModel (ext : String → Option String) (uuid : String) (netOk : Bool)
    (meta : ObjectMeta) : Except String String × List OSSRequestKind :=
  match ext meta.contentType with
  | none => (.error ("Unknown extension from 'Content-Type: " ++ meta.contentType ++ "'"), [])
  | some e =>
    let name := uuid ++ "." ++ e
    if name.data.contains '/' then
      (.error ("Invalid file name: " ++ name), [])
    else
      let reqs : List OSSRequestKind :=
        if meta.contentLength ≤ MULTIPART_UPLOAD_THRESHOLD then [.singlePut]
        else [.initiateMultipart, .uploadPartReq, .completeMultipart]
      if netOk then (.ok name, reqs) else (.error "request failure", reqs)

/-! ## Sample data for concrete evaluations -/

def sampleMessage : Message :=
  .mk none (some "hi") none none none

/-- A freshly submitted task, as `Task::create` builds it
(`src/entities/task.rs:34-45`). -/
def sampleTask : Task :=
  { id := "i", status := .pending, model := none, message := sampleMessage,
    completion := none, errMsg := none,
    createTime := "2024-01-15 10:30:45", finishTime := none }

def sampleFinishTime : String := "2024-01-15 10:30:46"

def sampleChunks : List Completion :=
  [{ reasoningContent := some "r", content := some "c", usage := none }]

def sampleFinishedTask : Task :=
  { sampleTask with status := .finished, finishTime := some sampleFinishTime }

/-- Top-level keys of a JSON document (for exhibiting duplicate object
keys). -/
def topLevelKeys (cs : List Char) : List String :=
  match parseJson cs with
  | some (.obj fs) => fs.map (fun f => f.1)
  | _ => []

/-- A download behaviour whose first attempt on every range yields two
bytes and then hits a mid-stream chunk error; the retry then delivers
the full range. -/
def oracleDup : Nat × Nat → Nat → RangeAttempt :=
  fun _ retry =>
    if retry = 0 then .chunks [[7, 8]] true else .chunks [[1, 2, 3, 4, 5]] false

/-- A download behaviour whose every attempt delivers the requested range
completely. -/
def oracleFull : Nat × Nat → Nat → RangeAttempt :=
  fun range _ => .chunks [List.replicate (range.2 + 1 - range.1) 0] false

/-- A sample extension table standing for the external
`rocket::ContentType` mapping. -/
def extSample : String → Option String :=
  fun ct => if ct = "application/pdf" then some "pdf" else none

/-! ## Helper lemmas -/

theorem kvGet_kvSet_self (k : String) (v : List Char) (l : List (String × List Char)) :
    kvGet k (kvSet k v l) = some v := by
  induction l with
  | nil => simp [kvSet, kvGet]
  | cons p rest ih =>
    cases p with
    | mk k' v' =>
      by_cases h : k' = k
      · simp [kvSet, kvGet, h]
      · simp [kvSet, kvGet, h, ih]

theorem poolStep_sum {s s' : PoolState} (h : PoolStep s s') :
    s'.permits + s'.workers = s.permits + s.workers := by
  cases h with
  | submitSpawn id hp => simp; omega
  | submitNoSpawn id hp => simp
  | workerPop hw hq => simp
  | workerExit hw hq => simp; omega

theorem poolReachable_sum {n : Nat} {s : PoolState} (h : PoolReachable n s) :
    s.permits + s.workers = n := by
  induction h with
  | refl => simp [initPool]
  | tail _ step ih => rw [poolStep_sum step, ih]

/-! ## Claims -/

/-- C2. At every instant, at most `num_workers` worker coroutines spawned
by `submit` are live: in every state reachable from a fresh process,
`workers ≤ num_workers`. The transition system only spawns a worker when
the non-blocking `try_acquire` succeeds (a permit is available,
`executor.rs:41`), and the only permit release is the loop exit after an
empty `BRPOP` (`executor.rs:51,55`); the invariant
`permits + workers = num_workers` is preserved by every step. -/
theorem executor_worker_pool_bounded (n : Nat) (s : PoolState)
    (h : PoolReachable n s) : s.workers ≤ n := by
  have hs := poolReachable_sum h
  omega

/-- Witness for C2: after one spawning submit from a fresh pool of
capacity 2, one worker is live, and the bound holds. -/
theorem executor_worker_pool_bounded_witness :
    PoolReachable 2 ⟨1, 1, ["a"]⟩ ∧ (PoolState.mk 1 1 ["a"]).workers ≤ 2 := by
  have hr : PoolReachable 2 ⟨1, 1, ["a"]⟩ :=
    Relation.ReflTransGen.single (PoolStep.submitSpawn (initPool 2) "a" (by simp [initPool]))
  exact ⟨hr, executor_worker_pool_bounded 2 _ hr⟩

/-- C8. When the model invocation errors, the worker persists the task
with `status = Failed` and `err_msg = Some(stringified error)`
(`executor.rs:131-135`), and `execute` never touches the pending queue,
so the id is never re-enqueued. -/
theorem execute_model_error_persists_failed (st : StoreState) (task : Task)
    (ft : String) (e : String) :
    (∃ t' : Task,
       kvGet task.id (executeModel st task ft (.error e)).store = some (serializeTask t') ∧
       t'.id = task.id ∧ t'.status = Status.failed ∧ t'.errMsg = some e) ∧
    (∀ result : Except String (List Completion),
       (executeModel st task ft result).queue = st.queue) := by
  refine ⟨⟨{ task with status := Status.failed, errMsg := some e }, ?_, rfl, rfl, rfl⟩, ?_⟩
  · simp [executeModel, setTask, kvGet_kvSet_self]
  · intro result
    cases result <;> simp [executeModel, setTask, setRaw]

/-- C3 counterexample. The claim (and spec) say `timeout_seconds = 0`
means "poll once then immediately return the current state after the
first tick". On a task that stays Pending forever, the loop has not
returned after 10 polls (`none` = still looping), because the
early-return branch is guarded by `timeout > 0` (`executor.rs:154`):
with `timeout = 0` the loop never returns a non-terminal task. -/
theorem result_timeout_zero_counterexample :
    resultLoop (fun _ => some sampleTask) "i" 0 10 0 = none := rfl

/-- C3 (amended). `result` polls `get` at 1 Hz and returns the task as
soon as its status is Finished or Failed, or — only when
`timeout_seconds > 0` — once `timeout_seconds` have elapsed; when
`timeout_seconds = 0` there is no timeout: the loop keeps polling and
only ever returns a task that is terminal (or an error if the task
disappears). Part 1: any returned task was observed at some poll and was
terminal or past a positive timeout (so with `timeout = 0` only terminal
tasks are ever returned). Part 2: a poll that observes a terminal task
returns it immediately. Part 3: with a positive timeout, a poll at
elapsed time `≥ timeout` returns the observed task immediately,
whatever its status. -/
theorem result_polls_until_terminal_or_timeout
    (trace : Nat → Option Task) (taskId : String) (timeout : Nat) :
    (∀ fuel i t, resultLoop trace taskId timeout fuel i = some (.ok t) →
       ∃ j, i ≤ j ∧ trace j = some t ∧
         ((t.status = Status.finished ∨ t.status = Status.failed) ∨
          (0 < timeout ∧ timeout ≤ j))) ∧
    (∀ i t fuel, trace i = some t →
       (t.status = Status.finished ∨ t.status = Status.failed) →
       resultLoop trace taskId timeout (fuel + 1) i = some (.ok t)) ∧
    (∀ i t fuel, trace i = some t → 0 < timeout → timeout ≤ i →
       resultLoop trace taskId timeout (fuel + 1) i = some (.ok t)) := by
  refine ⟨?_, ?_, ?_⟩
  · intro fuel
    induction fuel with
    | zero => intro i t h; simp [resultLoop] at h
    | succ n ih =>
      intro i t h
      rw [resultLoop] at h
      cases htr : trace i with
      | none => rw [htr] at h; simp at h
      | some task =>
        rw [htr] at h
        dsimp only at h
        by_cases hterm : task.status = Status.finished ∨ task.status = Status.failed
        · rw [if_pos hterm] at h
          refine ⟨i, le_rfl, ?_, ?_⟩
          · cases h; exact htr
          · cases h; exact Or.inl hterm
        · rw [if_neg hterm] at h
          by_cases hto : 0 < timeout ∧ timeout ≤ i
          · rw [if_pos hto] at h
            refine ⟨i, le_rfl, ?_, ?_⟩
            · cases h; exact htr
            · cases h; exact Or.inr hto
          · rw [if_neg hto] at h
            obtain ⟨j, hij, hj, hcond⟩ := ih (i + 1) t h
            exact ⟨j, by omega, hj, hcond⟩
  · intro i t fuel htr hterm
    rw [resultLoop, htr]
    dsimp only
    rw [if_pos hterm]
  · intro i t fuel htr hpos hle
    rw [resultLoop, htr]
    dsimp only
    by_cases hterm : t.status = Status.finished ∨ t.status = Status.failed
    · rw [if_pos hterm]
    · rw [if_neg hterm, if_pos ⟨hpos, hle⟩]

/-- Witness for C3 (amended): a task observed Finished at the first poll
is returned by that poll even with `timeout = 0`; and with
`timeout = 2`, the poll at elapsed time 2 returns a still-Pending
task. -/
theorem result_polls_until_terminal_witness :
    resultLoop (fun _ => some sampleFinishedTask) "i" 0 1 0 =
      some (.ok sampleFinishedTask) ∧
    resultLoop (fun _ => some sampleTask) "i" 2 1 2 = some (.ok sampleTask) :=
  ⟨(result_polls_until_terminal_or_timeout (fun _ => some sampleFinishedTask) "i" 0).2.1
     0 sampleFinishedTask 0 rfl (Or.inl rfl),
   (result_polls_until_terminal_or_timeout (fun _ => some sampleTask) "i" 2).2.2
     2 sampleTask 0 rfl (by norm_num) (le_refl 2)⟩

set_option maxRecDepth 400000 in
/-- C1 (code bug). The streaming persistence path cannot be read back by
`get`: `Task.completion` has no `skip_serializing_if`
(`src/entities/task.rs:25`), so the serialized prefix already contains
`"completion":null`, and the fragment appended at `executor.rs:94-127`
adds a second top-level `"completion"` key. serde's derived deserializer
rejects duplicate fields, so for every task whose stream succeeds,
`get(task.id)` returns a deserialization error — never a Task with
status Finished. Evaluated end-to-end at a concrete task and a
one-chunk stream: the persisted document's top-level keys contain
`completion` twice, and `get` errors. -/
theorem streaming_persistence_unreadable :
    topLevelKeys (repairNewlines
        (streamFinishBytes { sampleTask with status := Status.running }
          sampleFinishTime sampleChunks)) =
      ["id", "status", "model", "message", "completion", "create_time",
       "finish_time", "completion"] ∧
    getTask (executeModel ⟨[], []⟩ sampleTask sampleFinishTime (.ok sampleChunks))
        sampleTask.id = .error "deserialization failure" :=
  ⟨rfl, rfl⟩

/-- C9. `submit` persists the task strictly before the queue push
(`executor.rs:38-39`); a failing `LPUSH` aborts `submit` with an error
but does not roll back the store write, so `get(task.id)` still returns
the submitted (Pending) task; on success the id is LPUSHed after the
write. The hypothesis is the task's serialization round-trip through the
store pipeline (which the sample below discharges by evaluation). -/
theorem submit_persists_before_push (st : StoreState) (task : Task)
    (h : getTaskBytes (serializeTask task) = some task) :
    (submitModel st task true).1 = .error "LPUSH failure" ∧
    (submitModel st task true).2.queue = st.queue ∧
    getTask (submitModel st task true).2 task.id = .ok (some task) ∧
    (submitModel st task false).1 = .ok () ∧
    (submitModel st task false).2.queue = task.id :: st.queue ∧
    getTask (submitModel st task false).2 task.id = .ok (some task) := by
  refine ⟨rfl, rfl, ?_, rfl, rfl, ?_⟩ <;>
    simp [submitModel, setTask, getTask, kvGet_kvSet_self, h]

set_option maxRecDepth 400000 in
/-- Witness for C9 at the sample Pending task. -/
theorem submit_persists_before_push_witness :
    (submitModel ⟨[], []⟩ sampleTask true).1 = .error "LPUSH failure" ∧
    (submitModel ⟨[], []⟩ sampleTask true).2.queue = [] ∧
    getTask (submitModel ⟨[], []⟩ sampleTask true).2 sampleTask.id = .ok (some sampleTask) ∧
    (submitModel ⟨[], []⟩ sampleTask false).1 = .ok () ∧
    (submitModel ⟨[], []⟩ sampleTask false).2.queue = [sampleTask.id] ∧
    getTask (submitModel ⟨[], []⟩ sampleTask false).2 sampleTask.id = .ok (some sampleTask) :=
  submit_persists_before_push ⟨[], []⟩ sampleTask rfl

/-- C5. The `AdditionalHeaders` clause appears iff the caller supplied at
least one header before signing started, and then lists exactly the
lowercased caller-supplied header names, sorted ascending, joined by
`;` — the always-signed `Host`, `Date`, `x-oss-date`,
`x-oss-content-sha256` are inserted only after the list is computed
(`oss.rs:359-368`), so they are excluded. Conjuncts: the list is empty
iff no caller header; it is sorted; it is a permutation of (exactly) the
lowercased caller names; every entry comes from a caller header; and the
authorization string carries the clause exactly when the caller list is
non-empty. -/
theorem authorization_additional_headers
    (accessKeyId signDate region signature : String)
    (caller : List (String × String)) :
    (additionalHeadersOf caller = [] ↔ caller = []) ∧
    List.Sorted (· ≤ ·) (additionalHeadersOf caller) ∧
    List.Perm (additionalHeadersOf caller) (caller.map (fun h => h.1.toLower)) ∧
    (∀ x ∈ additionalHeadersOf caller, ∃ p ∈ caller, x = p.1.toLower) ∧
    requestAuth accessKeyId signDate region caller signature =
      "OSS4-HMAC-SHA256 Credential=" ++ accessKeyId ++ "/" ++ signDate ++ "/" ++ region ++
        "/oss/aliyun_v4_request" ++
        (if caller = [] then ""
         else ", AdditionalHeaders=" ++ String.intercalate ";" (additionalHeadersOf caller)) ++
        ", Signature=" ++ signature := by
  have hperm : List.Perm (additionalHeadersOf caller) (caller.map (fun h => h.1.toLower)) :=
    List.perm_insertionSort _ _
  have hempty : additionalHeadersOf caller = [] ↔ caller = [] := by
    constructor
    · intro h
      rw [h] at hperm
      have hm : caller.map (fun h => h.1.toLower) = [] :=
        List.Perm.eq_nil hperm.symm
      exact List.map_eq_nil_iff.mp hm
    · intro h
      subst h
      rfl
  refine ⟨hempty, ?_, hperm, ?_, ?_⟩
  · exact List.sorted_insertionSort _ _
  · intro x hx
    have hm := hperm.mem_iff.mp hx
    obtain ⟨p, hp, hpx⟩ := List.mem_map.mp hm
    exact ⟨p, hp, hpx.symm⟩
  · rw [requestAuth, authorizeV4]
    by_cases hc : caller = []
    · rw [if_pos hc]
      have h0 : additionalHeadersOf caller = [] := hempty.mpr hc
      rw [h0]
      rfl
    · rw [if_neg hc]
      have h0 : ¬ additionalHeadersOf caller = [] := fun h => hc (hempty.mp h)
      have h1 : (additionalHeadersOf caller).isEmpty = false := by
        rw [List.isEmpty_eq_false_iff_exists_mem]
        cases hl : additionalHeadersOf caller with
        | nil => exact absurd hl h0
        | cons a l => exact ⟨a, by simp⟩
      rw [h1]
      simp

theorem chain'_range'_of (P : Nat → Nat → Prop) :
    ∀ (n s : Nat), (∀ i, s ≤ i → i + 1 < s + n → P i (i + 1)) →
      List.Chain' P (List.range' s n) := by
  intro n
  induction n with
  | zero => intro s _; simp
  | succ m ih =>
    intro s h
    rw [List.range'_succ]
    rw [List.chain'_cons']
    constructor
    · intro y hy
      cases m with
      | zero => simp [List.range'] at hy
      | succ m' =>
        rw [List.range'_succ] at hy
        simp at hy
        subst hy
        exact h s le_rfl (by omega)
    · exact ih (s + 1) (fun i hi hlt => h i (by omega) (by omega))

theorem lt_rangeCount_iff (L j : Nat) :
    j < (L + GET_OBJECT_RANGE_SIZE - 1) / GET_OBJECT_RANGE_SIZE ↔
      j * GET_OBJECT_RANGE_SIZE < L := by
  rw [Nat.lt_iff_add_one_le,
      Nat.le_div_iff_mul_le (by norm_num [GET_OBJECT_RANGE_SIZE])]
  simp only [GET_OBJECT_RANGE_SIZE]
  omega

theorem rangeLoop_closed (L : Nat) :
    ∀ n j, n = (L + GET_OBJECT_RANGE_SIZE - 1) / GET_OBJECT_RANGE_SIZE - j →
      rangeLoop L (j * GET_OBJECT_RANGE_SIZE) =
        (List.range' j n).map
          (fun i => (i * GET_OBJECT_RANGE_SIZE,
                     min (i * GET_OBJECT_RANGE_SIZE + GET_OBJECT_RANGE_SIZE - 1) (L - 1))) := by
  intro n
  induction n with
  | zero =>
    intro j hj
    rw [rangeLoop, dif_neg]
    · simp
    · intro hlt
      have := (lt_rangeCount_iff L j).mpr hlt
      omega
  | succ m ih =>
    intro j hj
    have hjlt : j * GET_OBJECT_RANGE_SIZE < L := by
      apply (lt_rangeCount_iff L j).mp
      omega
    have hstep : j * GET_OBJECT_RANGE_SIZE + GET_OBJECT_RANGE_SIZE =
        (j + 1) * GET_OBJECT_RANGE_SIZE := by ring
    have htail : rangeLoop L (j * GET_OBJECT_RANGE_SIZE + GET_OBJECT_RANGE_SIZE) =
        (List.range' (j + 1) m).map
          (fun i => (i * GET_OBJECT_RANGE_SIZE,
                     min (i * GET_OBJECT_RANGE_SIZE + GET_OBJECT_RANGE_SIZE - 1) (L - 1))) := by
      rw [hstep]
      exact ih (j + 1) (by omega)
    rw [rangeLoop, dif_pos hjlt, htail, List.range'_succ, List.map_cons]

theorem getObjectRanges_closed (L : Nat) :
    getObjectRanges L =
      (List.range' 0 ((L + GET_OBJECT_RANGE_SIZE - 1) / GET_OBJECT_RANGE_SIZE)).map
        (fun i => (i * GET_OBJECT_RANGE_SIZE,
                   min (i * GET_OBJECT_RANGE_SIZE + GET_OBJECT_RANGE_SIZE - 1) (L - 1))) := by
  rw [getObjectRanges]
  have h := rangeLoop_closed L
      ((L + GET_OBJECT_RANGE_SIZE - 1) / GET_OBJECT_RANGE_SIZE) 0
      (Nat.sub_zero _).symm
  rw [Nat.zero_mul] at h
  exact h

theorem getObjectRanges_chain (L : Nat) :
    List.Chain' (fun a b : Nat × Nat => b.1 = a.2 + 1) (getObjectRanges L) := by
  rw [getObjectRanges_closed, List.chain'_map]
  apply chain'_range'_of
  intro i _ hlt
  have hi1 : (i + 1) * GET_OBJECT_RANGE_SIZE < L := by
    apply (lt_rangeCount_iff L (i + 1)).mp
    omega
  simp only [GET_OBJECT_RANGE_SIZE] at hi1 ⊢
  omega

theorem getObjectRanges_wf (L : Nat) :
    ∀ r ∈ getObjectRanges L, r.1 ≤ r.2 := by
  rw [getObjectRanges_closed]
  intro r hr
  obtain ⟨i, hi, hfi⟩ := List.mem_map.mp hr
  have hi' := (List.mem_range'_1.mp hi).2
  have : i * GET_OBJECT_RANGE_SIZE < L := (lt_rangeCount_iff L i).mp (by omega)
  rw [← hfi]
  simp only [GET_OBJECT_RANGE_SIZE] at this ⊢
  omega

/-- C6. For `content_length = L ≥ 1`, `get_object` requests exactly the
ranges `[i·R, min((i+1)·R − 1, L − 1)]` for `i = 0, 1, …` with
`R = GET_OBJECT_RANGE_SIZE = 16 MiB` (`oss.rs:50,102-103`): the request
plan equals that closed form, consecutive ranges are contiguous (next
start = previous end + 1, hence non-overlapping), every range is
non-empty, the first starts at 0, the last ends at `L − 1`, and every
offset below `L` is covered by some range. -/
theorem get_object_range_plan (L : Nat) (hL : 0 < L) :
    getObjectRanges L =
      (List.range' 0 ((L + GET_OBJECT_RANGE_SIZE - 1) / GET_OBJECT_RANGE_SIZE)).map
        (fun i => (i * GET_OBJECT_RANGE_SIZE,
                   min ((i + 1) * GET_OBJECT_RANGE_SIZE - 1) (L - 1))) ∧
    List.Chain' (fun a b => b.1 = a.2 + 1) (getObjectRanges L) ∧
    (∀ r ∈ getObjectRanges L, r.1 ≤ r.2) ∧
    (getObjectRanges L).head? = some (0, min (GET_OBJECT_RANGE_SIZE - 1) (L - 1)) ∧
    (getObjectRanges L).getLast?.map (fun r => r.2) = some (L - 1) ∧
    (∀ off, off < L → ∃ r ∈ getObjectRanges L, r.1 ≤ off ∧ off ≤ r.2) := by
  have hcount : 0 < (L + GET_OBJECT_RANGE_SIZE - 1) / GET_OBJECT_RANGE_SIZE := by
    apply (lt_rangeCount_iff L 0).mpr
    simpa using hL
  have hclosed' := getObjectRanges_closed L
  have hfml : ∀ i : Nat,
      (i + 1) * GET_OBJECT_RANGE_SIZE - 1 =
        i * GET_OBJECT_RANGE_SIZE + GET_OBJECT_RANGE_SIZE - 1 := by
    intro i
    have : (i + 1) * GET_OBJECT_RANGE_SIZE =
        i * GET_OBJECT_RANGE_SIZE + GET_OBJECT_RANGE_SIZE := by ring
    omega
  refine ⟨?_, getObjectRanges_chain L, getObjectRanges_wf L, ?_, ?_, ?_⟩
  · rw [hclosed']
    exact List.map_congr_left (fun i _ => by rw [hfml i])
  · rw [hclosed']
    cases hk : (L + GET_OBJECT_RANGE_SIZE - 1) / GET_OBJECT_RANGE_SIZE with
    | zero => omega
    | succ m =>
      rw [List.range'_succ]
      simp
  · rw [hclosed']
    generalize hk : (L + GET_OBJECT_RANGE_SIZE - 1) / GET_OBJECT_RANGE_SIZE = k
    rw [hk] at hcount
    have hkR : L ≤ k * GET_OBJECT_RANGE_SIZE := by
      by_contra hcon
      have := (lt_rangeCount_iff L k).mpr (by omega)
      omega
    have hlast : (List.range' 0 k).getLast? = some (k - 1) := by
      rw [List.getLast?_range', if_neg (by omega)]
      simp
    rw [List.getLast?_map, hlast]
    have hk1 : (k - 1) * GET_OBJECT_RANGE_SIZE < L :=
      (lt_rangeCount_iff L (k - 1)).mp (by omega)
    have hmul : (k - 1) * GET_OBJECT_RANGE_SIZE + GET_OBJECT_RANGE_SIZE =
        k * GET_OBJECT_RANGE_SIZE := by
      cases k with
      | zero => omega
      | succ m => simp [Nat.succ_mul]
    simp only [Option.map_some']
    congr 1
    simp only [GET_OBJECT_RANGE_SIZE] at hmul hkR ⊢
    omega
  · intro off hoff
    refine ⟨(off / GET_OBJECT_RANGE_SIZE * GET_OBJECT_RANGE_SIZE,
             min (off / GET_OBJECT_RANGE_SIZE * GET_OBJECT_RANGE_SIZE +
                  GET_OBJECT_RANGE_SIZE - 1) (L - 1)), ?_, ?_, ?_⟩
    · rw [hclosed']
      apply List.mem_map.mpr
      refine ⟨off / GET_OBJECT_RANGE_SIZE,
              List.mem_range'_1.mpr ⟨Nat.zero_le _, ?_⟩, rfl⟩
      have hmem := (lt_rangeCount_iff L (off / GET_OBJECT_RANGE_SIZE)).mpr
        (by simp only [GET_OBJECT_RANGE_SIZE]; omega)
      omega
    · simp only [GET_OBJECT_RANGE_SIZE]
      omega
    · simp only [GET_OBJECT_RANGE_SIZE]
      omega

/-- Witness for C6 at a 5-byte object (single range `[0, 4]`). -/
theorem get_object_range_plan_witness :
    getObjectRanges 5 =
      (List.range' 0 ((5 + GET_OBJECT_RANGE_SIZE - 1) / GET_OBJECT_RANGE_SIZE)).map
        (fun i => (i * GET_OBJECT_RANGE_SIZE,
                   min ((i + 1) * GET_OBJECT_RANGE_SIZE - 1) (5 - 1))) ∧
    List.Chain' (fun a b => b.1 = a.2 + 1) (getObjectRanges 5) ∧
    (∀ r ∈ getObjectRanges 5, r.1 ≤ r.2) ∧
    (getObjectRanges 5).head? = some (0, min (GET_OBJECT_RANGE_SIZE - 1) (5 - 1)) ∧
    (getObjectRanges 5).getLast?.map (fun r => r.2) = some (5 - 1) ∧
    (∀ off, off < 5 → ∃ r ∈ getObjectRanges 5, r.1 ≤ off ∧ off ≤ r.2) :=
  get_object_range_plan 5 (by norm_num)

theorem tagOffsets_map_fst (s : Nat) (bytes : List Nat) :
    (tagOffsets s bytes).map Prod.fst = List.range' s bytes.length := by
  rw [tagOffsets, List.map_map, List.range'_eq_map_range]
  rw [show (Prod.fst ∘ fun p : Nat × Nat => (s + p.1, p.2)) = ((s + ·) ∘ Prod.fst) from rfl]
  rw [← List.map_map, List.enum_map_fst]

theorem runRangeAux_spec (oracle : Nat × Nat → Nat → RangeAttempt) (range : Nat × Nat)
    (h1 : ∀ retry cs, oracle range retry = .chunks cs true → cs.flatten = [])
    (h2 : ∀ retry cs, oracle range retry = .chunks cs false →
          cs.flatten.length = range.2 + 1 - range.1) :
    ∀ retries, (∃ bytes : List Nat, bytes.length = range.2 + 1 - range.1 ∧
        runRangeAux oracle range retries = (tagOffsets range.1 bytes, true)) ∨
      runRangeAux oracle range retries = ([], false) := by
  intro retries
  induction retries with
  | nil => right; rfl
  | cons retry rest ih =>
    cases horacle : oracle range retry with
    | reqFail =>
      by_cases hrest : rest = []
      · right
        simp [runRangeAux, horacle, hrest]
      · have : runRangeAux oracle range (retry :: rest) = runRangeAux oracle range rest := by
          simp [runRangeAux, horacle, hrest]
        rw [this]
        exact ih
    | chunks cs midErr =>
      cases midErr with
      | true =>
        have hflat : cs.flatten = [] := h1 retry cs horacle
        have htag : tagOffsets range.1 cs.flatten = [] := by
          rw [hflat]
          rfl
        by_cases hrest : rest = []
        · right
          simp [runRangeAux, horacle, hrest, htag]
        · have : runRangeAux oracle range (retry :: rest) =
              runRangeAux oracle range rest := by
            simp [runRangeAux, horacle, hrest, htag]
          rw [this]
          exact ih
      | false =>
        left
        exact ⟨cs.flatten, h2 retry cs horacle, by simp [runRangeAux, horacle]⟩

theorem runDownload_chain (oracle : Nat × Nat → Nat → RangeAttempt)
    (h1 : ∀ range retry cs, oracle range retry = .chunks cs true → cs.flatten = [])
    (h2 : ∀ range retry cs, oracle range retry = .chunks cs false →
          cs.flatten.length = range.2 + 1 - range.1) :
    ∀ ranges : List (Nat × Nat),
      List.Chain' (fun a b => b.1 = a.2 + 1) ranges →
      (∀ r ∈ ranges, r.1 ≤ r.2) →
      List.Chain' (fun a b : Nat × Nat => a.1 < b.1) (runDownload oracle ranges) ∧
      (∀ x ∈ runDownload oracle ranges, ∀ r0 ∈ ranges.head?, r0.1 ≤ x.1) := by
  intro ranges
  induction ranges with
  | nil =>
    intro _ _
    exact ⟨by simp [runDownload], by intro x hx; simp [runDownload] at hx⟩
  | cons range rest ih =>
    intro hchain hwf
    have hchainrest : List.Chain' (fun a b : Nat × Nat => b.1 = a.2 + 1) rest :=
      (List.chain'_cons'.mp hchain).2
    have hwfrest : ∀ r ∈ rest, r.1 ≤ r.2 := fun r hr => hwf r (List.mem_cons_of_mem _ hr)
    obtain ⟨hcr, hlb⟩ := ih hchainrest hwfrest
    rcases runRangeAux_spec oracle range (h1 range) (h2 range) [0, 1, 2, 3] with
      ⟨bytes, hlen, heq⟩ | hfail
    · have hseq : runDownload oracle (range :: rest) =
          tagOffsets range.1 bytes ++ runDownload oracle rest := by
        simp [runDownload, heq]
      have hsfst : (tagOffsets range.1 bytes).map Prod.fst =
          List.range' range.1 bytes.length := tagOffsets_map_fst _ _
      have hwfr : range.1 ≤ range.2 := hwf range (List.mem_cons_self _ _)
      have hseg : List.Chain' (fun a b : Nat × Nat => a.1 < b.1)
          (tagOffsets range.1 bytes) := by
        have hc : List.Chain' (· < ·) ((tagOffsets range.1 bytes).map Prod.fst) := by
          rw [hsfst]
          exact (List.pairwise_lt_range' _ _).chain'
        exact (List.chain'_map Prod.fst).mp hc
      constructor
      · rw [hseq, List.chain'_append]
        refine ⟨hseg, hcr, ?_⟩
        intro x hx y hy
        cases hrest : rest with
        | nil =>
          rw [hrest] at hy
          simp [runDownload] at hy
        | cons r1 rest' =>
          have hy' : y ∈ runDownload oracle rest := List.mem_of_mem_head? hy
          have hylb : r1.1 ≤ y.1 := by
            apply hlb y hy' r1
            rw [hrest]
            rfl
          have hr1 : r1.1 = range.2 + 1 := by
            rw [hrest] at hchain
            exact (List.chain'_cons.mp hchain).1
          have hx1 : x.1 = range.2 := by
            have hlast := List.getLast?_map Prod.fst (tagOffsets range.1 bytes)
            rw [hsfst, List.getLast?_range', if_neg (by omega)] at hlast
            have hxeq : (tagOffsets range.1 bytes).getLast? = some x :=
              Option.mem_def.mp hx
            rw [hxeq] at hlast
            have : x.1 = range.1 + bytes.length - 1 := by
              simpa using hlast.symm
            omega
          omega
      · intro x hx r0 hr0
        have hr0' : range = r0 := by simpa using hr0
        rw [← hr0']
        rw [hseq] at hx
        rcases List.mem_append.mp hx with hxs | hxr
        · have : x.1 ∈ (tagOffsets range.1 bytes).map Prod.fst :=
            List.mem_map_of_mem Prod.fst hxs
          rw [hsfst] at this
          exact (List.mem_range'_1.mp this).1
        · cases hrest : rest with
          | nil =>
            rw [hrest] at hxr
            simp [runDownload] at hxr
          | cons r1 rest' =>
            have hx1 : r1.1 ≤ x.1 := by
              apply hlb x hxr r1
              rw [hrest]
              rfl
            have hr1 : r1.1 = range.2 + 1 := by
              rw [hrest] at hchain
              exact (List.chain'_cons.mp hchain).1
            omega
    · exact ⟨by simp [runDownload, hfail], by intro x hx; simp [runDownload, hfail] at hx⟩

/-- C7 counterexample. The claim asserts strictly increasing offsets
*including* when a range is re-requested after a mid-stream chunk error.
The code re-requests the *same full range* (`oss.rs:104-118`), so an
attempt that yields some bytes and then errors makes the retry re-yield
from the range start: with a first attempt yielding two bytes (offsets
0, 1) before its error and a successful retry (offsets 0..4), the
stream's offsets are 0, 1, 0, 1, 2, 3, 4 — not strictly increasing. -/
theorem download_offsets_counterexample :
    ¬ List.Chain' (fun a b : Nat × Nat => a.1 < b.1) (getObjectStream 5 oracleDup) := by
  have hr : getObjectRanges 5 = [(0, 4)] := by
    rw [getObjectRanges, rangeLoop, dif_pos (by norm_num)]
    rw [rangeLoop, dif_neg (by norm_num [GET_OBJECT_RANGE_SIZE])]
    norm_num [GET_OBJECT_RANGE_SIZE]
  have hs : runDownload oracleDup [(0, 4)] =
      [(0, 7), (1, 8), (0, 1), (1, 2), (2, 3), (3, 4), (4, 5)] := rfl
  rw [getObjectStream, hr, hs]
  intro h
  have h1 := (List.chain'_cons.mp h).2
  have h2 := (List.chain'_cons.mp h1).1
  simp at h2

/-- C7 (amended). Within a single download, bytes are yielded in strictly
increasing file-offset order *provided* every range attempt that fails
mid-stream does so before yielding any chunk (`h1`) and every attempt
that completes delivers exactly the requested range (`h2`); without the
first proviso the per-range retry re-requests the same range from its
beginning and repeats already-yielded offsets (see the counterexample). -/
theorem download_offsets_strictly_increasing (L : Nat)
    (oracle : Nat × Nat → Nat → RangeAttempt)
    (h1 : ∀ range retry cs, oracle range retry = .chunks cs true → cs.flatten = [])
    (h2 : ∀ range retry cs, oracle range retry = .chunks cs false →
          cs.flatten.length = range.2 + 1 - range.1) :
    List.Chain' (fun a b : Nat × Nat => a.1 < b.1) (getObjectStream L oracle) :=
  (runDownload_chain oracle h1 h2 (getObjectRanges L)
    (getObjectRanges_chain L) (getObjectRanges_wf L)).1

/-- Witness for C7 (amended): a download whose attempts always deliver
their full range yields strictly increasing offsets. -/
theorem download_offsets_strictly_increasing_witness :
    List.Chain' (fun a b : Nat × Nat => a.1 < b.1) (getObjectStream 5 oracleFull) := by
  apply download_offsets_strictly_increasing 5 oracleFull
  · intro range retry cs h
    simp [oracleFull] at h
  · intro range retry cs h
    rw [oracleFull] at h
    cases h
    simp

/-- C10. `put_object` forms the name `"<uuid>.<ext>"` via
`meta.extension()?` *before* building the key or issuing any request
(`oss.rs:140`), so an unknown content-type mapping aborts with an error
and an empty request list; and any successful return carries exactly the
name `uuid ++ "." ++ ext` with the extension derived from the content
type alone. -/
theorem put_object_extension_gate (ext : String → Option String) (uuid : String)
    (netOk : Bool) (meta : ObjectMeta) :
    (ext meta.contentType = none →
       putObjectModel ext uuid netOk meta =
         (.error ("Unknown extension from 'Content-Type: " ++ meta.contentType ++ "'"), [])) ∧
    (∀ name reqs, putObjectModel ext uuid netOk meta = (.ok name, reqs) →
       ∃ e, ext meta.contentType = some e ∧ name = uuid ++ "." ++ e) := by
  constructor
  · intro h
    simp [putObjectModel, h]
  · intro name reqs h
    cases hx : ext meta.contentType with
    | none => simp [putObjectModel, hx] at h
    | some e =>
      refine ⟨e, rfl, ?_⟩
      simp only [putObjectModel, hx] at h
      split_ifs at h
      · simp at h
      · rw [Prod.mk.injEq] at h
        exact (Except.ok.inj h.1).symm
      · rw [Prod.mk.injEq] at h
        exact (Except.ok.inj h.1).symm
      · simp at h
      · simp at h

/-- Witness for C10: an unmapped content type errors with no request; a
mapped one returns `uuid.ext`. -/
theorem put_object_extension_gate_witness :
    putObjectModel extSample "u" true ⟨"text/unknown", 5⟩ =
      (.error ("Unknown extension from 'Content-Type: " ++ "text/unknown" ++ "'"), []) ∧
    (∃ e, extSample "application/pdf" = some e ∧ "u.pdf" = "u" ++ "." ++ e) :=
  ⟨(put_object_extension_gate extSample "u" true ⟨"text/unknown", 5⟩).1 rfl,
   (put_object_extension_gate extSample "u" true ⟨"application/pdf", 5⟩).2
     "u.pdf" [.singlePut] rfl⟩

theorem splitLoop_spec (P : Nat) (hP : 0 < P) :
    ∀ (n : Nat) (buffer : List Nat) (pn : Nat), buffer.length ≤ n →
      ∃ k,
        (splitLoop P buffer pn).1.map (fun p => p.partNumber) = List.range' pn k ∧
        (splitLoop P buffer pn).2.2 = pn + k ∧
        (∀ p ∈ (splitLoop P buffer pn).1, p.data.length = P) ∧
        ((splitLoop P buffer pn).1.map (fun p => p.data)).flatten ++
            (splitLoop P buffer pn).2.1 = buffer ∧
        (splitLoop P buffer pn).2.1.length < P := by
  intro n
  induction n with
  | zero =>
    intro buffer pn hlen
    have hguard : ¬ (P ≤ buffer.length ∧ 0 < P) := by omega
    rw [splitLoop, dif_neg hguard]
    refine ⟨0, by simp, by simp, by simp, by simp, ?_⟩
    show buffer.length < P
    omega
  | succ m ih =>
    intro buffer pn hlen
    by_cases hguard : P ≤ buffer.length ∧ 0 < P
    · rw [splitLoop, dif_pos hguard]
      obtain ⟨k, hnum, hcnt, hsz, hflat, hres⟩ :=
        ih (buffer.drop P) (pn + 1) (by simp; omega)
      refine ⟨k + 1, ?_, ?_, ?_, ?_, ?_⟩
      · show ((⟨pn, buffer.take P⟩ : PartUpload) ::
            (splitLoop P (buffer.drop P) (pn + 1)).1).map (fun p => p.partNumber) =
          List.range' pn (k + 1)
        rw [List.map_cons, hnum, List.range'_succ]
      · show (splitLoop P (buffer.drop P) (pn + 1)).2.2 = pn + (k + 1)
        rw [hcnt]
        omega
      · show ∀ p ∈ (⟨pn, buffer.take P⟩ : PartUpload) ::
            (splitLoop P (buffer.drop P) (pn + 1)).1, p.data.length = P
        intro p hp
        rcases List.mem_cons.mp hp with hph | hpt
        · rw [hph]
          show (buffer.take P).length = P
          rw [List.length_take]
          omega
        · exact hsz p hpt
      · show (((⟨pn, buffer.take P⟩ : PartUpload) ::
            (splitLoop P (buffer.drop P) (pn + 1)).1).map (fun p => p.data)).flatten ++
            (splitLoop P (buffer.drop P) (pn + 1)).2.1 = buffer
        rw [List.map_cons, List.flatten_cons, List.append_assoc, hflat,
            List.take_append_drop]
      · exact hres
    · rw [splitLoop, dif_neg hguard]
      refine ⟨0, by simp, by simp, by simp, by simp, ?_⟩
      show buffer.length < P
      omega

theorem feedChunks_spec (P : Nat) (hP : 0 < P) :
    ∀ (chunks : List (List Nat)) (buffer : List Nat) (pn : Nat), buffer.length < P →
      ∃ k,
        (feedChunks P chunks buffer pn).1.map (fun p => p.partNumber) = List.range' pn k ∧
        (feedChunks P chunks buffer pn).2.2 = pn + k ∧
        (∀ p ∈ (feedChunks P chunks buffer pn).1, p.data.length = P) ∧
        ((feedChunks P chunks buffer pn).1.map (fun p => p.data)).flatten ++
            (feedChunks P chunks buffer pn).2.1 = buffer ++ chunks.flatten ∧
        (feedChunks P chunks buffer pn).2.1.length < P := by
  intro chunks
  induction chunks with
  | nil =>
    intro buffer pn hlen
    exact ⟨0, by simp [feedChunks], by simp [feedChunks], by simp [feedChunks],
           by simp [feedChunks], by simpa [feedChunks] using hlen⟩
  | cons chunk rest ih =>
    intro buffer pn hlen
    obtain ⟨k1, h1n, h1c, h1s, h1f, h1r⟩ :=
      splitLoop_spec P hP (buffer ++ chunk).length (buffer ++ chunk) pn le_rfl
    obtain ⟨k2, h2n, h2c, h2s, h2f, h2r⟩ :=
      ih (splitLoop P (buffer ++ chunk) pn).2.1 (splitLoop P (buffer ++ chunk) pn).2.2 h1r
    refine ⟨k1 + k2, ?_, ?_, ?_, ?_, ?_⟩
    · show ((splitLoop P (buffer ++ chunk) pn).1 ++
          (feedChunks P rest (splitLoop P (buffer ++ chunk) pn).2.1
            (splitLoop P (buffer ++ chunk) pn).2.2).1).map (fun p => p.partNumber) =
        List.range' pn (k1 + k2)
      rw [List.map_append, h1n, h2n, h1c]
      have hra := List.range'_append pn k1 k2 1
      simp only [Nat.one_mul] at hra
      rw [hra, Nat.add_comm k2 k1]
    · show (feedChunks P rest (splitLoop P (buffer ++ chunk) pn).2.1
          (splitLoop P (buffer ++ chunk) pn).2.2).2.2 = pn + (k1 + k2)
      rw [h2c, h1c]
      omega
    · show ∀ p ∈ (splitLoop P (buffer ++ chunk) pn).1 ++
          (feedChunks P rest (splitLoop P (buffer ++ chunk) pn).2.1
            (splitLoop P (buffer ++ chunk) pn).2.2).1, p.data.length = P
      intro p hp
      rcases List.mem_append.mp hp with hp1 | hp2
      · exact h1s p hp1
      · exact h2s p hp2
    · show (((splitLoop P (buffer ++ chunk) pn).1 ++
          (feedChunks P rest (splitLoop P (buffer ++ chunk) pn).2.1
            (splitLoop P (buffer ++ chunk) pn).2.2).1).map (fun p => p.data)).flatten ++
          (feedChunks P rest (splitLoop P (buffer ++ chunk) pn).2.1
            (splitLoop P (buffer ++ chunk) pn).2.2).2.1 =
        buffer ++ (chunk :: rest).flatten
      rw [List.map_append, List.flatten_append, List.append_assoc, h2f,
          ← List.append_assoc, h1f, List.append_assoc, List.flatten_cons]
    · show (feedChunks P rest (splitLoop P (buffer ++ chunk) pn).2.1
          (splitLoop P (buffer ++ chunk) pn).2.2).2.1.length < P
      exact h2r

theorem multipartEmit_spec (P : Nat) (hP : 0 < P) (chunks : List (List Nat)) :
    (multipartEmit P chunks).map (fun p => p.partNumber) =
      List.range' 1 (multipartEmit P chunks).length ∧
    (∀ p ∈ (multipartEmit P chunks).dropLast, p.data.length = P) ∧
    (∀ p ∈ multipartEmit P chunks, 0 < p.data.length ∧ p.data.length ≤ P) ∧
    ((multipartEmit P chunks).map (fun p => p.data)).flatten = chunks.flatten := by
  obtain ⟨k, hn, hc, hs, hf, hr⟩ := feedChunks_spec P hP chunks [] 1 (by simpa using hP)
  have hklen : (feedChunks P chunks [] 1).1.length = k := by
    have := congrArg List.length hn
    simpa using this
  by_cases hres : (feedChunks P chunks [] 1).2.1 = []
  · have he : multipartEmit P chunks = (feedChunks P chunks [] 1).1 := by
      simp [multipartEmit, hres]
    rw [he, hklen, hn]
    refine ⟨rfl, ?_, ?_, ?_⟩
    · intro p hp
      exact hs p (List.dropLast_subset _ hp)
    · intro p hp
      have := hs p hp
      omega
    · rw [hres] at hf
      simpa using hf
  · have he : multipartEmit P chunks = (feedChunks P chunks [] 1).1 ++
        [⟨(feedChunks P chunks [] 1).2.2, (feedChunks P chunks [] 1).2.1⟩] := by
      simp [multipartEmit, hres]
    rw [he]
    refine ⟨?_, ?_, ?_, ?_⟩
    · have hlenfull : ((feedChunks P chunks [] 1).1 ++
          [(⟨(feedChunks P chunks [] 1).2.2, (feedChunks P chunks [] 1).2.1⟩ :
            PartUpload)]).length = 1 + k := by
        rw [List.length_append, hklen]
        simp
        omega
      rw [hlenfull, List.map_append, hn]
      simp only [List.map_cons, List.map_nil]
      rw [hc]
      have hra := List.range'_append 1 k 1 1
      simp only [Nat.one_mul] at hra
      rw [← hra, List.range'_one]
    · rw [List.dropLast_concat]
      exact hs
    · intro p hp
      rcases List.mem_append.mp hp with hp1 | hp2
      · have := hs p hp1
        omega
      · have hp' : p = ⟨(feedChunks P chunks [] 1).2.2, (feedChunks P chunks [] 1).2.1⟩ := by
          simpa using hp2
        rw [hp']
        constructor
        · have : (feedChunks P chunks [] 1).2.1 ≠ [] := hres
          have := List.length_pos.mpr this
          simpa using this
        · simpa using Nat.le_of_lt hr
    · rw [List.map_append, List.flatten_append]
      simp only [List.map_cons, List.map_nil, List.flatten_cons, List.flatten_nil,
        List.append_nil]
      simpa using hf

theorem sorted_perm_eq : ∀ (l₂ l₁ : List PartUpload),
    List.Perm l₁ l₂ →
    List.Pairwise (fun a b => a.partNumber < b.partNumber) l₂ →
    List.Pairwise (fun a b => a.partNumber ≤ b.partNumber) l₁ →
    l₁ = l₂ := by
  intro l₂
  induction l₂ with
  | nil =>
    intro l₁ hperm _ _
    exact hperm.eq_nil
  | cons a t₂ ih =>
    intro l₁ hperm h2 h1
    cases l₁ with
    | nil =>
      have := hperm.symm.eq_nil
      simp at this
    | cons b t₁ =>
      have hba : b = a := by
        by_contra hne
        have hbmem : b ∈ a :: t₂ := hperm.mem_iff.mp (by simp)
        have hbt2 : b ∈ t₂ := (List.mem_cons.mp hbmem).resolve_left hne
        have haltb : a.partNumber < b.partNumber := (List.pairwise_cons.mp h2).1 b hbt2
        have hamem : a ∈ b :: t₁ := hperm.mem_iff.mpr (by simp)
        have hat1 : a ∈ t₁ :=
          (List.mem_cons.mp hamem).resolve_left (fun h => hne h.symm)
        have hblea : b.partNumber ≤ a.partNumber := (List.pairwise_cons.mp h1).1 a hat1
        omega
      subst hba
      have htperm : List.Perm t₁ t₂ := hperm.cons_inv
      rw [ih t₁ htperm (List.pairwise_cons.mp h2).2 (List.pairwise_cons.mp h1).2]

/-- C4. For every multipart upload body (arriving as `chunks`), whatever
order the spawned part futures complete in (`collected` is any
permutation of the spawned parts), the `sort_by_key` at `oss.rs:222`
restores exactly the spawn order, whose part numbers are `1, 2, …, k`
contiguous and ascending; every part except possibly the last is exactly
`MULTIPART_UPLOAD_PART_SIZE = 4 MiB`, every part is non-empty and at most
4 MiB (so the residual final part is the `< 4 MiB` flush), and the
parts' payloads concatenate back to the body. -/
theorem multipart_complete_order (chunks : List (List Nat)) (collected : List PartUpload)
    (hperm : List.Perm collected (multipartEmit MULTIPART_UPLOAD_PART_SIZE chunks)) :
    sortParts collected = multipartEmit MULTIPART_UPLOAD_PART_SIZE chunks ∧
    (multipartEmit MULTIPART_UPLOAD_PART_SIZE chunks).map (fun p => p.partNumber) =
      List.range' 1 (multipartEmit MULTIPART_UPLOAD_PART_SIZE chunks).length ∧
    (∀ p ∈ (multipartEmit MULTIPART_UPLOAD_PART_SIZE chunks).dropLast,
        p.data.length = MULTIPART_UPLOAD_PART_SIZE) ∧
    (∀ p ∈ multipartEmit MULTIPART_UPLOAD_PART_SIZE chunks,
        0 < p.data.length ∧ p.data.length ≤ MULTIPART_UPLOAD_PART_SIZE) ∧
    ((multipartEmit MULTIPART_UPLOAD_PART_SIZE chunks).map (fun p => p.data)).flatten =
      chunks.flatten := by
  have hP : 0 < MULTIPART_UPLOAD_PART_SIZE := by norm_num [MULTIPART_UPLOAD_PART_SIZE]
  obtain ⟨hn, hd, hb, hf⟩ := multipartEmit_spec MULTIPART_UPLOAD_PART_SIZE hP chunks
  refine ⟨?_, hn, hd, hb, hf⟩
  have hsortperm : List.Perm (sortParts collected)
      (multipartEmit MULTIPART_UPLOAD_PART_SIZE chunks) :=
    (List.perm_insertionSort _ collected).trans hperm
  have hemitlt : List.Pairwise (fun a b : PartUpload => a.partNumber < b.partNumber)
      (multipartEmit MULTIPART_UPLOAD_PART_SIZE chunks) := by
    apply List.pairwise_map.mp
    rw [hn]
    exact List.pairwise_lt_range' _ _
  have hsorted : List.Pairwise (fun a b : PartUpload => a.partNumber ≤ b.partNumber)
      (sortParts collected) := by
    haveI : IsTotal PartUpload (fun a b => a.partNumber ≤ b.partNumber) :=
      ⟨fun a b => Nat.le_total _ _⟩
    haveI : IsTrans PartUpload (fun a b => a.partNumber ≤ b.partNumber) :=
      ⟨fun _ _ _ hab hbc => Nat.le_trans hab hbc⟩
    exact List.sorted_insertionSort _ collected
  exact sorted_perm_eq _ _ hsortperm hemitlt hsorted

/-- Witness for C4 at a one-byte body collected in spawn order. -/
theorem multipart_complete_order_witness :
    sortParts (multipartEmit MULTIPART_UPLOAD_PART_SIZE [[0]]) =
      multipartEmit MULTIPART_UPLOAD_PART_SIZE [[0]] ∧
    (multipartEmit MULTIPART_UPLOAD_PART_SIZE [[0]]).map (fun p => p.partNumber) =
      List.range' 1 (multipartEmit MULTIPART_UPLOAD_PART_SIZE [[0]]).length ∧
    (∀ p ∈ (multipartEmit MULTIPART_UPLOAD_PART_SIZE [[0]]).dropLast,
        p.data.length = MULTIPART_UPLOAD_PART_SIZE) ∧
    (∀ p ∈ multipartEmit MULTIPART_UPLOAD_PART_SIZE [[0]],
        0 < p.data.length ∧ p.data.length ≤ MULTIPART_UPLOAD_PART_SIZE) ∧
    ((multipartEmit MULTIPART_UPLOAD_PART_SIZE [[0]]).map (fun p => p.data)).flatten =
      [[0]].flatten :=
  multipart_complete_order [[0]] (multipartEmit MULTIPART_UPLOAD_PART_SIZE [[0]])
    (List.Perm.refl _)

end RocketAgentx
